import Mathlib

/-!
Shallow embedding of the grid-labeling search engine of the GraphTheory
repository (FiniteTPGridLabeling.py, FiniteGridSAT.py, LadderSAT.py).

The grid of the backtracking solver is a flat row-major list of `N * N`
cells; `0` stands for Python's unassigned cell, assigned cells hold a
positive label.  The module-level constant `GRID_SIZE` of the source is
made an explicit parameter `N`, and `MAX_COL_NUMBER` a parameter of the
sweep, as the spec directs for configuration constants.
-/

namespace GraphTheory

/-- `abs(a - b)` of Python on integer cell values, as a natural number. -/
def adiff (a b : Nat) : Nat := Int.natAbs ((a : Int) - (b : Int))

/-- Packing portion of `is_locally_valid_finite` (FiniteTPGridLabeling.py,
lines 39-46): for `x` in `range(val+1)`, `y = val - x`, skip `(0,0)`,
and when `r - y` and `c - x` are both nonnegative compare the cell at
`(r - y, c - x)` with `val`. -/
def packingOk (N : Nat) (g : List Nat) (r c val : Nat) : Bool :=
  (List.range (val + 1)).all fun x =>
    if x == 0 && (val - x) == 0 then true
    else if (val - x) ≤ r && x ≤ c then
      !(g.getD ((r - (val - x)) * N + (c - x)) 0 == val)
    else true

/-- Left-edge block of `is_locally_valid_finite` (lines 51-65). -/
def leftOk (N : Nat) (g : List Nat) (r c val : Nat) : Bool :=
  if 0 < c then
    if adiff val (g.getD (r * N + (c - 1)) 0) == 0
        || adiff val (g.getD (r * N + (c - 1)) 0) == val
        || adiff val (g.getD (r * N + (c - 1)) 0) == g.getD (r * N + (c - 1)) 0 then false
    else if 0 < r && adiff val (g.getD (r * N + (c - 1)) 0)
        == adiff (g.getD (r * N + (c - 1)) 0) (g.getD ((r - 1) * N + (c - 1)) 0) then false
    else if 1 < c && adiff val (g.getD (r * N + (c - 1)) 0)
        == adiff (g.getD (r * N + (c - 1)) 0) (g.getD (r * N + (c - 2)) 0) then false
    else true
  else true

/-- Top-edge block of `is_locally_valid_finite` (lines 67-84). -/
def topOk (N : Nat) (g : List Nat) (r c val : Nat) : Bool :=
  if 0 < r then
    if adiff val (g.getD ((r - 1) * N + c) 0) == 0
        || adiff val (g.getD ((r - 1) * N + c) 0) == val
        || adiff val (g.getD ((r - 1) * N + c) 0) == g.getD ((r - 1) * N + c) 0 then false
    else if 1 < r && adiff val (g.getD ((r - 1) * N + c) 0)
        == adiff (g.getD ((r - 1) * N + c) 0) (g.getD ((r - 2) * N + c) 0) then false
    else if 0 < c && adiff val (g.getD ((r - 1) * N + c) 0)
        == adiff (g.getD ((r - 1) * N + c) 0) (g.getD ((r - 1) * N + (c - 1)) 0) then false
    else if c < N - 1 && adiff val (g.getD ((r - 1) * N + c) 0)
        == adiff (g.getD ((r - 1) * N + c) 0) (g.getD ((r - 1) * N + (c + 1)) 0) then false
    else true
  else true

/-- Final block of `is_locally_valid_finite` (lines 86-89): the two edges
created by the new cell may not be equal.  When `0 < c` and `0 < r` the
sentinels `diff_left`, `diff_top` of the source hold exactly the two
absolute differences recomputed here. -/
def crossOk (N : Nat) (g : List Nat) (r c val : Nat) : Bool :=
  if 0 < c && 0 < r then
    !(adiff val (g.getD (r * N + (c - 1)) 0) == adiff val (g.getD ((r - 1) * N + c) 0))
  else true

/-- `is_locally_valid_finite(grid_1d, r, c, val)` of FiniteTPGridLabeling.py:
the incremental Rule Engine predicate.  The source's early returns become
the `&&` chain (same Boolean value, same reads). -/
def is_locally_valid_finite (N : Nat) (g : List Nat) (r c val : Nat) : Bool :=
  packingOk N g r c val && leftOk N g r c val && topOk N g r c val && crossOk N g r c val

/-- The `for val in range(1, max_col + 1)` loop body of `backtrack`
(FiniteTPGridLabeling.py, lines 26-36), with numpy's in-place mutation made
explicit: `vals` is the list of candidate values still to try, `bt` is the
recursive call into the next cell, and the returned list is the state of
the mutated grid when the loop exits. -/
def tryVals (N idx : Nat) (bt : List Nat → Bool × List Nat) :
    List Nat → List Nat → Bool × List Nat
  | [], grid => (false, grid)
  | val :: rest, grid =>
    let g1 := grid.set idx val
    if is_locally_valid_finite N g1 (idx / N) (idx % N) val then
      match bt g1 with
      | (true, g2) => (true, g2)
      | (false, g2) => tryVals N idx bt rest (g2.set idx 0)
    else
      tryVals N idx bt rest (g1.set idx 0)

/-- `backtrack(grid, idx, max_col)` of FiniteTPGridLabeling.py, with the
termination argument made structural: `cells` counts the cells left to
fill, so `cells = 0` is the source's `idx == TOTAL_CELLS` success exit
(the driver always calls with `cells = N * N - idx` and `idx ≤ N * N`).
`r, c = divmod(idx, GRID_SIZE)` and the candidate order is `1, ..., max_col`. -/
def backtrackF (N max_col : Nat) : Nat → List Nat → Nat → Bool × List Nat
  | 0, grid, _ => (true, grid)
  | cells + 1, grid, idx =>
    tryVals N idx (fun g => backtrackF N max_col cells g (idx + 1))
      ((List.range max_col).map (· + 1)) grid

/-- `backtrack(grid, idx, max_col)` as called by the driver. -/
def backtrack (N max_col : Nat) (grid : List Nat) (idx : Nat) : Bool × List Nat :=
  backtrackF N max_col (N * N - idx) grid idx

/-- The all-`Unassigned` grid `np.zeros(TOTAL_CELLS)`. -/
def zeros (N : Nat) : List Nat := List.replicate (N * N) 0

/-- The budget sweep of `solve_finite_grid`: `left` counts the budgets still
to try, `colNum` is the current budget. -/
def sweepFrom (N : Nat) : Nat → Nat → Option (Nat × List Nat)
  | 0, _ => none
  | left + 1, colNum =>
    match backtrack N colNum (zeros N) 0 with
    | (true, g) => some (colNum, g)
    | (false, _) => sweepFrom N left (colNum + 1)

/-- `solve_finite_grid()` of FiniteTPGridLabeling.py: try budgets
`colNum = 1, ..., maxColNumber` on a fresh zero grid and stop at the first
success; the successful budget and grid (the data the source prints) are
returned, `none` models the fall-through failure message. -/
def solve_finite_grid (N maxColNumber : Nat) : Option (Nat × List Nat) :=
  sweepFrom N maxColNumber 1

/-- `grid.reshape((GRID_SIZE, GRID_SIZE))`: the flat grid as a list of rows,
the shape consumed by the independent verifier. -/
def toRows (N : Nat) (g : List Nat) : List (List Nat) :=
  (List.range N).map fun r => (List.range N).map fun c => g.getD (r * N + c) 0

/-! ### The independent verifier (FiniteGridSAT.py, verify_finite_solution) -/

/-- `grid[r][c]` on a row-list grid. -/
def cellVal (g : List (List Nat)) (r c : Nat) : Nat := (g.getD r []).getD c 0

/-- Python's `range(lo, hi)` over integers. -/
def irange (lo hi : Int) : List Int :=
  (List.range (hi - lo).toNat).map fun i : Nat => lo + (i : Int)

/-- Packing test of `verify_finite_solution` for one cell (lines 142-153):
the full Manhattan diamond `|dy| + |dx| <= val` in every direction, with
the boundary check applied to the displaced coordinate. -/
def packCellOk (g : List (List Nat)) (N r c val : Nat) : Bool :=
  (irange (-(val : Int)) ((val : Int) + 1)).all fun dy =>
    (irange (-(val : Int)) ((val : Int) + 1)).all fun dx =>
      if dy == 0 && dx == 0 then true
      else if dy.natAbs + dx.natAbs ≤ val then
        if 0 ≤ (r : Int) + dy ∧ (r : Int) + dy < (N : Int) ∧
            0 ≤ (c : Int) + dx ∧ (c : Int) + dx < (N : Int) then
          !(cellVal g ((r : Int) + dy).toNat ((c : Int) + dx).toNat == val)
        else true
      else true

/-- The in-bounds 4-neighborhood scan of `verify_finite_solution`
(lines 160-162), in the source's Up/Down/Left/Right order. -/
def neighborsB (N r c : Nat) : List (Nat × Nat) :=
  [((-1 : Int), (0 : Int)), (1, 0), (0, -1), (0, 1)].filterMap fun p =>
    if 0 ≤ (r : Int) + p.1 ∧ (r : Int) + p.1 < (N : Int) ∧
        0 ≤ (c : Int) + p.2 ∧ (c : Int) + p.2 < (N : Int) then
      some (((r : Int) + p.1).toNat, ((c : Int) + p.2).toNat)
    else none

/-- Per-neighbor vertex rules of `verify_finite_solution` (lines 166-179). -/
def edgeRulesOk (g : List (List Nat)) (N r c val : Nat) : Bool :=
  (neighborsB N r c).all fun q =>
    let d := adiff val (cellVal g q.1 q.2)
    !(d == 0) && !(d == val) && !(d == cellVal g q.1 q.2)

/-- The `incident_edges` list collected by `verify_finite_solution`. -/
def incidentEdges (g : List (List Nat)) (N r c val : Nat) : List Nat :=
  (neighborsB N r c).map fun q => adiff val (cellVal g q.1 q.2)

/-- All checks `verify_finite_solution` runs for the cell `(r, c)`:
packing diamond, per-neighbor vertex rules, incident-edge uniqueness
(`len(set(incident_edges)) == len(incident_edges)`). -/
def verifyCellOk (g : List (List Nat)) (N r c : Nat) : Bool :=
  let val := cellVal g r c
  packCellOk g N r c val && edgeRulesOk g N r c val &&
    decide (incidentEdges g N r c val).Nodup

/-- The checks `verify_finite_solution` runs for the cell `(r, c)`, in the
source's order, tagged with the rule group of the first failing check:
`0` the packing test, `1` the per-neighbor vertex rules, `2` incident-edge
uniqueness; `none` when the cell passes. -/
def verifyCellFail (g : List (List Nat)) (N r c : Nat) : Option Nat :=
  if packCellOk g N r c (cellVal g r c) = false then some 0
  else if edgeRulesOk g N r c (cellVal g r c) = false then some 1
  else if decide (incidentEdges g N r c (cellVal g r c)).Nodup = false then some 2
  else none

/-- The first cell, in the row-major scan order of `verify_finite_solution`,
at which the verifier returns `False`, with the coordinate and rule group
its failure message carries; `none` when every cell passes. -/
def verifyFirstFail (g : List (List Nat)) (N : Nat) : Option (Nat × Nat × Nat) :=
  (List.range N).findSome? fun r =>
    (List.range N).findSome? fun c =>
      (verifyCellFail g N r c).map fun k => (r, c, k)

/-- The Boolean result of `verify_finite_solution(grid, N)`. -/
def verify_finite_solution (g : List (List Nat)) (N : Nat) : Bool :=
  (verifyFirstFail g N).isNone

/-! ### Topology (LadderSAT.py `get_var`, and the bounded boundary check) -/

/-- `get_var(r, c)` of `solve_ladder_cylinder` (LadderSAT.py, lines 23-26):
the column wraps modulo the width, a row outside `[0, HEIGHT)` has no
variable.  Python's `%` on a positive modulus is `Int.emod`. -/
def get_var_cylinder (height width : Nat) (r c : Int) : Option (Nat × Nat) :=
  if 0 ≤ r ∧ r < (height : Int) then some (r.toNat, (c % (width : Int)).toNat)
  else none

/-- `get_var(r, c)` of `solve_with_ortools` (LadderSAT.py, lines 154-155):
both coordinates wrap modulo `N`; a neighbor always exists. -/
def get_var_toroidal (N : Nat) (r c : Int) : Nat × Nat :=
  ((r % (N : Int)).toNat, (c % (N : Int)).toNat)

/-- The bounded-topology neighbor query: the boundary test
`0 <= nr < N and 0 <= nc < N` of FiniteGridSAT.py (and the nonnegativity
test of FiniteTPGridLabeling.py, line 44) as a resolution to
`Option Coordinate`. -/
def neighbor_bounded (rows cols : Nat) (r c dr dc : Int) : Option (Nat × Nat) :=
  if 0 ≤ r + dr ∧ r + dr < (rows : Int) ∧ 0 ≤ c + dc ∧ c + dc < (cols : Int) then
    some ((r + dr).toNat, (c + dc).toNat)
  else none

/-! ### The toroidal verifier (LadderSAT.py, `verify_solution`, lines 278-326) -/

/-- Python's `a % N` on possibly negative `a`, as a row/column index. -/
def tmod (a : Int) (N : Nat) : Nat := (a % (N : Int)).toNat

/-- Toroidal packing test of `verify_solution` for one cell (lines 289-300):
the full diamond with both coordinates wrapped modulo `N`. -/
def packTorCellOk (g : List (List Nat)) (N r c val : Nat) : Bool :=
  (irange (-(val : Int)) ((val : Int) + 1)).all fun dy =>
    (irange (-(val : Int)) ((val : Int) + 1)).all fun dx =>
      if dy == 0 && dx == 0 then true
      else if dy.natAbs + dx.natAbs ≤ val then
        !(cellVal g (tmod ((r : Int) + dy) N) (tmod ((c : Int) + dx) N) == val)
      else true

/-- All checks `verify_solution` runs for the cell `(r, c)` (lines 285-319):
toroidal packing, the four toroidal incident edges, `0`/own-value
membership tests, the right/down neighbor-value tests, and uniqueness of
the four incident edges (`len(set(incident_edges)) != 4`). -/
def verifyTorCellOk (g : List (List Nat)) (N r c : Nat) : Bool :=
  let val := cellVal g r c
  packTorCellOk g N r c val &&
    (let edge_right := adiff val (cellVal g r (tmod ((c : Int) + 1) N))
     let edge_down := adiff val (cellVal g (tmod ((r : Int) + 1) N) c)
     let edge_left := adiff val (cellVal g r (tmod ((c : Int) - 1) N))
     let edge_up := adiff val (cellVal g (tmod ((r : Int) - 1) N) c)
     let incident_edges := [edge_right, edge_down, edge_left, edge_up]
     !(incident_edges.contains 0) && !(incident_edges.contains val) &&
       !(edge_right == cellVal g r (tmod ((c : Int) + 1) N)) &&
       !(edge_down == cellVal g (tmod ((r : Int) + 1) N) c) &&
       decide incident_edges.Nodup)

/-- The Boolean result of the toroidal `verify_solution(grid, N)`: `True`
iff no cell makes it return through `print_fail`. -/
def verify_solution (g : List (List Nat)) (N : Nat) : Bool :=
  (List.range N).all fun r => (List.range N).all fun c => verifyTorCellOk g N r c

/-- The unordered "right" edge of cell `(r, c)` on the `N`-torus. -/
def rightEdgeOf (N r c : Nat) : Sym2 (Nat × Nat) :=
  Sym2.mk ((r, c), (r, (c + 1) % N))

/-- The unordered "down" edge of cell `(r, c)` on the `N`-torus. -/
def downEdgeOf (N r c : Nat) : Sym2 (Nat × Nat) :=
  Sym2.mk ((r, c), ((r + 1) % N, c))

/-- `e` is the right edge or the down edge of the cell `q`. -/
def isRDEdgeOf (N : Nat) (q : Nat × Nat) (e : Sym2 (Nat × Nat)) : Prop :=
  rightEdgeOf N q.1 q.2 = e ∨ downEdgeOf N q.1 q.2 = e

/-! ### Search-state instrumentation and specification-level predicates -/

/-- `tryVals` instrumented to also return, in order, the entry states
`(idx, grid)` of every recursive `backtrack` call the loop makes. -/
def tryValsT (N idx : Nat) (bt : List Nat → (Bool × List Nat) × List (Nat × List Nat)) :
    List Nat → List Nat → (Bool × List Nat) × List (Nat × List Nat)
  | [], grid => ((false, grid), [])
  | val :: rest, grid =>
    let g1 := grid.set idx val
    if is_locally_valid_finite N g1 (idx / N) (idx % N) val then
      match bt g1 with
      | ((true, g2), tr) => ((true, g2), tr)
      | ((false, g2), tr) =>
        let res := tryValsT N idx bt rest (g2.set idx 0)
        (res.1, tr ++ res.2)
    else
      tryValsT N idx bt rest (g1.set idx 0)

/-- `backtrackF` instrumented with the trace of call entry states; the
head of the trace is the entry state of the call itself. -/
def backtrackT (N max_col : Nat) : Nat → List Nat → Nat → (Bool × List Nat) × List (Nat × List Nat)
  | 0, grid, idx => ((true, grid), [(idx, grid)])
  | cells + 1, grid, idx =>
    let res := tryValsT N idx (fun g => backtrackT N max_col cells g (idx + 1))
      ((List.range max_col).map (· + 1)) grid
    (res.1, (idx, grid) :: res.2)

/-- The stack-discipline invariant at entry to `backtrack(grid, idx)`:
cells before the frontier hold a value in `[1, max_col]`, cells from the
frontier on are `Unassigned` (`0`). -/
def StackInv (max_col : Nat) (g : List Nat) (idx : Nat) : Prop :=
  (∀ j < idx, 1 ≤ g.getD j 0 ∧ g.getD j 0 ≤ max_col) ∧
    (∀ j < g.length, idx ≤ j → g.getD j 0 = 0)

instance (max_col : Nat) (g : List Nat) (idx : Nat) : Decidable (StackInv max_col g idx) := by
  unfold StackInv; infer_instance

/-- Cells `p` and `q` are grid-adjacent on the bounded `N × N` grid:
both in range and at Manhattan distance exactly `1`. -/
def Adj (N : Nat) (p q : Nat × Nat) : Prop :=
  p.1 < N ∧ p.2 < N ∧ q.1 < N ∧ q.2 < N ∧ adiff p.1 q.1 + adiff p.2 q.2 = 1

/-- The cell value of the flat grid `g` at coordinate `p`. -/
def cellAt (N : Nat) (g : List Nat) (p : Nat × Nat) : Nat :=
  g.getD (p.1 * N + p.2) 0

/-- Rules 2-7 of the specification, globally over the bounded grid:
for every grid-adjacent pair, basic inequality, no-doubling and the
vertex/edge-compatibility rules for the weight `|a - b|`; for every
unordered pair of distinct neighbors of a common cell, the
arithmetic-progression rule and incident-edge-weight distinctness. -/
def Rules2to7 (N : Nat) (g : List Nat) : Prop :=
  (∀ p q, Adj N p q →
    cellAt N g p ≠ cellAt N g q ∧
      cellAt N g p ≠ 2 * cellAt N g q ∧ cellAt N g q ≠ 2 * cellAt N g p ∧
      adiff (cellAt N g p) (cellAt N g q) ≠ 0 ∧
      adiff (cellAt N g p) (cellAt N g q) ≠ cellAt N g p ∧
      adiff (cellAt N g p) (cellAt N g q) ≠ cellAt N g q) ∧
    (∀ p q1 q2, Adj N p q1 → Adj N p q2 → q1 ≠ q2 →
      2 * cellAt N g p ≠ cellAt N g q1 + cellAt N g q2 ∧
        adiff (cellAt N g p) (cellAt N g q1) ≠ adiff (cellAt N g p) (cellAt N g q2))

/-- Specification-level packing property at `(r, c)`: no other in-range
cell within the full Manhattan exclusion diamond — any direction, any
distance `1..val` — repeats the value of `(r, c)`. -/
def packSpec (g : List (List Nat)) (N r c : Nat) : Prop :=
  ∀ r2, r2 < N → ∀ c2, c2 < N → ¬(r2 = r ∧ c2 = c) →
    adiff r2 r + adiff c2 c ≤ cellVal g r c → cellVal g r2 c2 ≠ cellVal g r c

/-- Specification-level vertex/edge rules at `(r, c)`: each incident edge
weight is nonzero and differs from both endpoint values. -/
def edgeSpec (g : List (List Nat)) (N r c : Nat) : Prop :=
  ∀ q ∈ neighborsB N r c,
    adiff (cellVal g r c) (cellVal g q.1 q.2) ≠ 0 ∧
      adiff (cellVal g r c) (cellVal g q.1 q.2) ≠ cellVal g r c ∧
      adiff (cellVal g r c) (cellVal g q.1 q.2) ≠ cellVal g q.1 q.2

/-- The specification-level per-cell property the bounded verifier decides
for the cell `(r, c)`: full-diamond packing, the vertex/edge rules for
every in-range neighbor, and pairwise-distinct incident edge weights. -/
def cellSpecOk (g : List (List Nat)) (N r c : Nat) : Prop :=
  packSpec g N r c ∧ edgeSpec g N r c ∧ (incidentEdges g N r c (cellVal g r c)).Nodup

/-! ### Basic facts about `adiff` -/

lemma adiff_comm (a b : Nat) : adiff a b = adiff b a := by
  unfold adiff; omega

lemma adiff_eq_zero_iff {a b : Nat} : adiff a b = 0 ↔ a = b := by
  unfold adiff; omega

lemma adiff_eq_of_twice {m n1 n2 : Nat} (h : 2 * m = n1 + n2) :
    adiff m n1 = adiff m n2 := by
  unfold adiff; omega

/-! ### Claim theorems: algebraic layer and concrete evaluations -/

/-- C4: for positive `a`, `b` the per-edge weight conditions
`adiff a b ∉ {0, a, b}` are equivalent to basic inequality plus the
no-doubling rule, and equality of two incident edge weights
`adiff m n1 = adiff m n2` is equivalent to `n1 = n2` or `2·m = n1 + n2`,
so the checks of `is_locally_valid_finite` enforce exactly those rules. -/
theorem edge_weight_algebra (a b m n1 n2 : Nat) (ha : 1 ≤ a) (hb : 1 ≤ b) :
    ((adiff a b ≠ 0 ∧ adiff a b ≠ a ∧ adiff a b ≠ b) ↔
      (a ≠ b ∧ a ≠ 2 * b ∧ b ≠ 2 * a)) ∧
    (adiff m n1 = adiff m n2 ↔ (n1 = n2 ∨ 2 * m = n1 + n2)) := by
  unfold adiff
  constructor <;> omega

theorem edge_weight_algebra_witness :
    (2 : Nat) ≠ 5 ∧ (2 : Nat) ≠ 2 * 5 ∧ (5 : Nat) ≠ 2 * 2 :=
  (edge_weight_algebra 2 5 0 0 0 (by decide) (by decide)).1.mp (by decide)

/-- C2 (evaluation at the failing input): placing value `4` at cell
`(0, 3)` while cell `(0, 0)` already holds `4` at Manhattan distance
`3 ≤ 4` — strictly inside the exclusion diamond — is accepted by the
incremental packing check and by the whole incremental predicate, because
the check scans only the boundary ring at distance exactly `val` in the
upper-left quadrant. -/
theorem packing_check_misses_inner_diamond :
    packingOk 4 [4, 1, 6, 4, 0, 0, 0, 0, 0, 0, 0, 0, 0, 0, 0, 0] 0 3 4 = true ∧
    is_locally_valid_finite 4 [4, 1, 6, 4, 0, 0, 0, 0, 0, 0, 0, 0, 0, 0, 0, 0] 0 3 4 = true ∧
    List.getD [4, 1, 6, 4, 0, 0, 0, 0, 0, 0, 0, 0, 0, 0, 0, 0] (0 * 4 + 0) 0 = 4 ∧
    adiff 0 0 + adiff 3 0 = 3 ∧ 3 ≤ 4 := by
  refine ⟨by decide, by decide, by decide, by decide, by decide⟩

/-- C1 (evaluation at the failing input): on the 3×3 grid with budget 6
the backtracking driver reports success, yet the completed grid fails the
independent verifier — its first failure is the packing rule at cell
`(1, 0)` (the grid holds two 5s at Manhattan distance 3). -/
theorem backtrack_success_fails_verifier :
    backtrack 3 6 (zeros 3) 0 = (true, [1, 4, 3, 5, 6, 1, 3, 2, 5]) ∧
    verify_finite_solution (toRows 3 [1, 4, 3, 5, 6, 1, 3, 2, 5]) 3 = false ∧
    verifyFirstFail (toRows 3 [1, 4, 3, 5, 6, 1, 3, 2, 5]) 3 = some (1, 0, 0) := by
  refine ⟨by decide, by decide, by decide⟩

/-- C7: the backtracking solver and the sweep are pure functions of the
grid dimension and the budget: two runs on identical inputs fail
identically or succeed with bit-identical labelings. -/
theorem solve_deterministic (N max_col maxColNumber : Nat) (b1 b2 : Bool)
    (g1 g2 : List Nat) (r1 r2 : Option (Nat × List Nat))
    (h1 : backtrack N max_col (zeros N) 0 = (b1, g1))
    (h2 : backtrack N max_col (zeros N) 0 = (b2, g2))
    (h3 : solve_finite_grid N maxColNumber = r1)
    (h4 : solve_finite_grid N maxColNumber = r2) :
    (b1 = b2 ∧ g1 = g2) ∧ r1 = r2 := by
  rw [h1] at h2
  rw [h3] at h4
  exact ⟨⟨congrArg Prod.fst h2, congrArg Prod.snd h2⟩, h4⟩

theorem solve_deterministic_witness :
    ((true = true ∧ [1, 3, 5, 2] = [1, 3, 5, 2]) ∧
      (some (5, [1, 3, 5, 2]) : Option (Nat × List Nat)) = some (5, [1, 3, 5, 2])) :=
  solve_deterministic 2 5 10 true true [1, 3, 5, 2] [1, 3, 5, 2]
    (some (5, [1, 3, 5, 2])) (some (5, [1, 3, 5, 2]))
    (by decide) (by decide) (by decide) (by decide)

/-- The budget sweep, from any starting budget. -/
lemma sweepFrom_spec (N : Nat) :
    ∀ left colNum k g, sweepFrom N left colNum = some (k, g) →
      colNum ≤ k ∧ k < colNum + left ∧ backtrack N k (zeros N) 0 = (true, g) ∧
        ∀ j, colNum ≤ j → j < k → (backtrack N j (zeros N) 0).1 = false := by
  intro left
  induction left with
  | zero => intro colNum k g h; simp [sweepFrom] at h
  | succ left ih =>
    intro colNum k g h
    unfold sweepFrom at h
    cases hbt : backtrack N colNum (zeros N) 0 with
    | mk b gr =>
      rw [hbt] at h
      cases b with
      | true =>
        simp only [Option.some.injEq, Prod.mk.injEq] at h
        obtain ⟨hk, hg⟩ := h
        subst hk; subst hg
        refine ⟨Nat.le_refl _, by omega, hbt, ?_⟩
        intro j hj1 hj2; omega
      | false =>
        obtain ⟨h1, h2, h3, h4⟩ := ih (colNum + 1) k g h
        refine ⟨by omega, by omega, h3, ?_⟩
        intro j hj1 hj2
        rcases Nat.eq_or_lt_of_le hj1 with hj | hj
        · subst hj; rw [hbt]
        · exact h4 j (by omega) hj2

/-- C8: `solve_finite_grid` sweeps budgets `1, 2, ...` in increasing
order, each attempt on a fresh all-zero grid, and stops at the first
success, so a reported budget is minimal: every smaller positive budget
makes the search fail. -/
theorem minimal_budget_sweep (N M k : Nat) (g : List Nat)
    (h : solve_finite_grid N M = some (k, g)) :
    1 ≤ k ∧ k ≤ M ∧ backtrack N k (zeros N) 0 = (true, g) ∧
      ∀ j, 1 ≤ j → j < k → (backtrack N j (zeros N) 0).1 = false := by
  obtain ⟨h1, h2, h3, h4⟩ := sweepFrom_spec N M 1 k g h
  exact ⟨h1, by omega, h3, h4⟩

theorem minimal_budget_sweep_witness :
    (1 ≤ 5 ∧ 5 ≤ 10 ∧ backtrack 2 5 (zeros 2) 0 = (true, [1, 3, 5, 2])) ∧
      (backtrack 2 4 (zeros 2) 0).1 = false :=
  let T := minimal_budget_sweep 2 10 5 [1, 3, 5, 2] (by decide)
  ⟨⟨T.1, T.2.1, T.2.2.1⟩, T.2.2.2 4 (by decide) (by decide)⟩

/-- C9: toroidal neighbor queries reduce both coordinates modulo the grid
dimension and always resolve (on a 4×4 torus, cell `(0,0)` at offset
`(-1,0)` resolves to `(3,0)`); bounded queries outside
`[0, rows) × [0, cols)` resolve to none (the same query resolves to none);
cylinder queries wrap the column modulo the width and drop rows outside
`[0, height)`. -/
theorem topology_neighbor_resolution (N h w rows cols : Nat) (hN : 0 < N) (hw : 0 < w)
    (r c dr dc : Int) :
    (((get_var_toroidal N r c).1 : Int) = r % (N : Int) ∧
      ((get_var_toroidal N r c).2 : Int) = c % (N : Int) ∧
      (get_var_toroidal N r c).1 < N ∧ (get_var_toroidal N r c).2 < N) ∧
    get_var_toroidal 4 (0 + (-1)) (0 + 0) = (3, 0) ∧
    (¬(0 ≤ r + dr ∧ r + dr < (rows : Int) ∧ 0 ≤ c + dc ∧ c + dc < (cols : Int)) →
      neighbor_bounded rows cols r c dr dc = none) ∧
    neighbor_bounded 4 4 0 0 (-1) 0 = none ∧
    (0 ≤ r → r < (h : Int) →
      get_var_cylinder h w r c = some (r.toNat, (c % (w : Int)).toNat) ∧
        ((c % (w : Int)).toNat : Int) = c % (w : Int) ∧ (c % (w : Int)).toNat < w) ∧
    (¬(0 ≤ r ∧ r < (h : Int)) → get_var_cylinder h w r c = none) := by
  have hN0 : (N : Int) ≠ 0 := by
    intro hz; omega
  have hNpos : (0 : Int) < (N : Int) := by omega
  have hw0 : (w : Int) ≠ 0 := by intro hz; omega
  have hwpos : (0 : Int) < (w : Int) := by omega
  refine ⟨?_, by decide, ?_, by decide, ?_, ?_⟩
  · have h1 := Int.emod_nonneg r hN0
    have h2 := Int.emod_lt_of_pos r hNpos
    have h3 := Int.emod_nonneg c hN0
    have h4 := Int.emod_lt_of_pos c hNpos
    simp only [get_var_toroidal]
    refine ⟨by omega, by omega, by omega, by omega⟩
  · intro hcond
    simp only [neighbor_bounded]
    rw [if_neg hcond]
  · intro h1 h2
    have h3 := Int.emod_nonneg c hw0
    have h4 := Int.emod_lt_of_pos c hwpos
    simp only [get_var_cylinder]
    rw [if_pos ⟨h1, h2⟩]
    refine ⟨rfl, by omega, by omega⟩
  · intro hcond
    simp only [get_var_cylinder]
    rw [if_neg hcond]

theorem topology_neighbor_resolution_witness :
    get_var_toroidal 4 (0 + (-1)) (0 + 0) = (3, 0) ∧
      neighbor_bounded 4 4 0 0 (-1) 0 = none :=
  let T := topology_neighbor_resolution 4 2 3 4 4 (by decide) (by decide) (-1) 5 0 0
  ⟨T.2.1, T.2.2.2.1⟩

/-! ### Torus edges (C10) -/

lemma add_mod_ne_self {N a k : Nat} (ha : a < N) (h0 : 0 < k) (hk : k < N) :
    (a + k) % N ≠ a := by
  intro h
  rcases Nat.lt_or_ge (a + k) N with h1 | h1
  · rw [Nat.mod_eq_of_lt h1] at h; omega
  · have h2 : a + k - N < N := by omega
    rw [Nat.mod_eq_sub_mod h1, Nat.mod_eq_of_lt h2] at h
    omega

lemma tmod_cast_add_one (c N : Nat) : tmod ((c : Int) + 1) N = (c + 1) % N := by
  unfold tmod
  rw [show ((c : Int) + 1) = ((c + 1 : Nat) : Int) by push_cast; ring]
  rw [Int.ofNat_mod_ofNat, Int.toNat_ofNat]

lemma rightEdge_unique {N r c : Nat} (hN : 3 ≤ N) (hr : r < N) (hc : c < N) :
    ∃! q : Nat × Nat, q.1 < N ∧ q.2 < N ∧ isRDEdgeOf N q (rightEdgeOf N r c) := by
  refine ⟨(r, c), ⟨hr, hc, Or.inl rfl⟩, ?_⟩
  rintro ⟨r2, c2⟩ ⟨h1, h2, h3 | h3⟩
  · unfold rightEdgeOf at h3
    rw [Sym2.eq_iff] at h3
    simp only [Prod.mk.injEq] at h3
    rcases h3 with ⟨⟨e1, e2⟩, -⟩ | ⟨⟨e1, e2⟩, -, e4⟩
    · simp [e1, e2]
    · exfalso
      rw [e2, Nat.mod_add_mod] at e4
      have H := add_mod_ne_self (a := c) (k := 2) hc (by omega) (by omega)
      exact H e4
  · unfold downEdgeOf rightEdgeOf at h3
    rw [Sym2.eq_iff] at h3
    simp only [Prod.mk.injEq] at h3
    exfalso
    rcases h3 with ⟨⟨e1, e2⟩, e3, -⟩ | ⟨⟨e1, e2⟩, e3, e4⟩
    · rw [e1] at e3
      have H := add_mod_ne_self (a := r) (k := 1) hr (by omega) (by omega)
      exact H e3
    · rw [e2] at e4
      have H := add_mod_ne_self (a := c) (k := 1) hc (by omega) (by omega)
      exact H e4
  -- the remaining bounds hypotheses h1 h2 are not needed for uniqueness

lemma downEdge_unique {N r c : Nat} (hN : 3 ≤ N) (hr : r < N) (hc : c < N) :
    ∃! q : Nat × Nat, q.1 < N ∧ q.2 < N ∧ isRDEdgeOf N q (downEdgeOf N r c) := by
  refine ⟨(r, c), ⟨hr, hc, Or.inr rfl⟩, ?_⟩
  rintro ⟨r2, c2⟩ ⟨h1, h2, h3 | h3⟩
  · unfold downEdgeOf rightEdgeOf at h3
    rw [Sym2.eq_iff] at h3
    simp only [Prod.mk.injEq] at h3
    exfalso
    have H := add_mod_ne_self (a := r) (k := 1) hr (by omega) (by omega)
    rcases h3 with ⟨⟨e1, e2⟩, e3, e4⟩ | ⟨⟨e1, e2⟩, e3, e4⟩
    · rw [e1] at e3
      exact H e3.symm
    · rw [e1] at e3
      exact H e3
  · unfold downEdgeOf at h3
    rw [Sym2.eq_iff] at h3
    simp only [Prod.mk.injEq] at h3
    rcases h3 with ⟨⟨e1, e2⟩, -⟩ | ⟨⟨e1, e2⟩, e3, -⟩
    · simp [e1, e2]
    · exfalso
      rw [e1, Nat.mod_add_mod] at e3
      have H := add_mod_ne_self (a := r) (k := 2) hr (by omega) (by omega)
      exact H e3

/-- C10 counterexample: on the 2-torus the horizontal edge between
`(0,0)` and `(0,1)` is the right edge of two distinct cells, so it is
not the right-or-down edge of exactly one cell. -/
theorem torus_edge_not_unique_on_two :
    ¬ (∃! q : Nat × Nat, q.1 < 2 ∧ q.2 < 2 ∧ isRDEdgeOf 2 q (rightEdgeOf 2 0 0)) := by
  rintro ⟨q, -, huniq⟩
  have h1 : ((0 : Nat), (0 : Nat)) = q :=
    huniq (0, 0) ⟨by decide, by decide, Or.inl rfl⟩
  have h2 : ((0 : Nat), (1 : Nat)) = q := by
    refine huniq (0, 1) ⟨by decide, by decide, Or.inl ?_⟩
    unfold rightEdgeOf
    rw [Sym2.eq_iff]
    exact Or.inr ⟨rfl, rfl⟩
  rw [← h1] at h2
  exact absurd h2 (by decide)

/-- C10 (amended): on an `N`-torus with `N ≥ 3` every right/down edge is
the right-or-down edge of exactly one cell; whenever the toroidal verifier
passes, it has run every cell's check, and each cell's check makes the
right and down edge weights differ from `0` and from both endpoint values,
while all four incident edge weights differ from `0` and the own value. -/
theorem torus_edge_coverage (N : Nat) (g : List (List Nat)) (r c : Nat)
    (hr : r < N) (hc : c < N) :
    (3 ≤ N →
      (∃! q : Nat × Nat, q.1 < N ∧ q.2 < N ∧ isRDEdgeOf N q (rightEdgeOf N r c)) ∧
      (∃! q : Nat × Nat, q.1 < N ∧ q.2 < N ∧ isRDEdgeOf N q (downEdgeOf N r c))) ∧
    (verify_solution g N = true → verifyTorCellOk g N r c = true) ∧
    (verifyTorCellOk g N r c = true →
      (adiff (cellVal g r c) (cellVal g r ((c + 1) % N)) ≠ 0 ∧
        adiff (cellVal g r c) (cellVal g r ((c + 1) % N)) ≠ cellVal g r c ∧
        adiff (cellVal g r c) (cellVal g r ((c + 1) % N)) ≠ cellVal g r ((c + 1) % N)) ∧
      (adiff (cellVal g r c) (cellVal g ((r + 1) % N) c) ≠ 0 ∧
        adiff (cellVal g r c) (cellVal g ((r + 1) % N) c) ≠ cellVal g r c ∧
        adiff (cellVal g r c) (cellVal g ((r + 1) % N) c) ≠ cellVal g ((r + 1) % N) c) ∧
      (adiff (cellVal g r c) (cellVal g r (tmod ((c : Int) - 1) N)) ≠ 0 ∧
        adiff (cellVal g r c) (cellVal g r (tmod ((c : Int) - 1) N)) ≠ cellVal g r c) ∧
      (adiff (cellVal g r c) (cellVal g (tmod ((r : Int) - 1) N) c) ≠ 0 ∧
        adiff (cellVal g r c) (cellVal g (tmod ((r : Int) - 1) N) c) ≠ cellVal g r c)) := by
  refine ⟨fun hN => ⟨rightEdge_unique hN hr hc, downEdge_unique hN hr hc⟩, ?_, ?_⟩
  · intro h
    unfold verify_solution at h
    rw [List.all_eq_true] at h
    have h1 := h r (List.mem_range.mpr hr)
    rw [List.all_eq_true] at h1
    exact h1 c (List.mem_range.mpr hc)
  · intro h
    unfold verifyTorCellOk at h
    rw [← tmod_cast_add_one c N, ← tmod_cast_add_one r N]
    simp only [Bool.and_eq_true, Bool.not_eq_true', List.contains_cons,
      List.contains_nil, Bool.or_eq_false_iff, beq_eq_false_iff_ne,
      ne_eq, decide_eq_true_eq] at h
    obtain ⟨-, ⟨⟨⟨⟨z1, z2, z3, z4, -⟩, v1, v2, v3, v4, -⟩, er⟩, ed⟩, -⟩ := h
    exact ⟨⟨fun hx => z1 hx.symm, fun hx => v1 hx.symm, er⟩,
      ⟨fun hx => z2 hx.symm, fun hx => v2 hx.symm, ed⟩,
      ⟨fun hx => z3 hx.symm, fun hx => v3 hx.symm⟩,
      ⟨fun hx => z4 hx.symm, fun hx => v4 hx.symm⟩⟩

theorem torus_edge_coverage_witness :
    (adiff 1 3 ≠ 0 ∧ adiff 1 3 ≠ 1 ∧ adiff 1 3 ≠ 3) ∧
      (adiff 1 8 ≠ 0 ∧ adiff 1 8 ≠ 1 ∧ adiff 1 8 ≠ 8) ∧
      (adiff 1 6 ≠ 0 ∧ adiff 1 6 ≠ 1) ∧
      (adiff 1 12 ≠ 0 ∧ adiff 1 12 ≠ 1) :=
  (torus_edge_coverage 5
      [[1, 3, 9, 9, 6], [8, 0, 0, 0, 0], [0, 0, 0, 0, 0], [0, 0, 0, 0, 0], [12, 0, 0, 0, 0]]
      0 0 (by decide) (by decide)).2.2 (by decide)

/-! ### The bounded verifier checks exactly the full-diamond semantics (C5) -/

instance (g : List (List Nat)) (N r c : Nat) : Decidable (packSpec g N r c) := by
  unfold packSpec; infer_instance

instance (g : List (List Nat)) (N r c : Nat) : Decidable (edgeSpec g N r c) := by
  unfold edgeSpec; infer_instance

instance (g : List (List Nat)) (N r c : Nat) : Decidable (cellSpecOk g N r c) := by
  unfold cellSpecOk; infer_instance

lemma mem_irange {lo hi a : Int} : a ∈ irange lo hi ↔ lo ≤ a ∧ a < hi := by
  unfold irange
  simp only [List.mem_map, List.mem_range]
  constructor
  · rintro ⟨i, hi2, rfl⟩
    omega
  · intro h
    exact ⟨(a - lo).toNat, by omega, by omega⟩

lemma packCellOk_iff {g : List (List Nat)} {N r c val : Nat} :
    packCellOk g N r c val = true ↔
      ∀ r2, r2 < N → ∀ c2, c2 < N → ¬(r2 = r ∧ c2 = c) →
        adiff r2 r + adiff c2 c ≤ val → cellVal g r2 c2 ≠ val := by
  unfold packCellOk
  rw [List.all_eq_true]
  constructor
  · intro h r2 h1 c2 h2 h3 h4
    have hdy : ((r2 : Int) - r) ∈ irange (-(val : Int)) ((val : Int) + 1) := by
      rw [mem_irange]; unfold adiff at h4; omega
    have h6 := h _ hdy
    rw [List.all_eq_true] at h6
    have hdx : ((c2 : Int) - c) ∈ irange (-(val : Int)) ((val : Int) + 1) := by
      rw [mem_irange]; unfold adiff at h4; omega
    have h7 := h6 _ hdx
    rw [if_neg, if_pos, if_pos] at h7
    · have e1 : ((r : Int) + ((r2 : Int) - r)).toNat = r2 := by omega
      have e2 : ((c : Int) + ((c2 : Int) - c)).toNat = c2 := by omega
      rw [e1, e2] at h7
      simpa using h7
    · refine ⟨by omega, by omega, by omega, by omega⟩
    · unfold adiff at h4; omega
    · simp only [Bool.and_eq_true, beq_iff_eq, not_and]
      intro hdy0 hdx0
      exact absurd ⟨by omega, by omega⟩ h3
  · intro hspec dy hdy
    rw [List.all_eq_true]
    intro dx hdx
    rw [mem_irange] at hdy hdx
    by_cases h0 : (dy == 0 && dx == 0) = true
    · rw [if_pos h0]
    · rw [if_neg h0]
      by_cases h1 : dy.natAbs + dx.natAbs ≤ val
      · rw [if_pos h1]
        by_cases h2 : 0 ≤ (r : Int) + dy ∧ (r : Int) + dy < (N : Int) ∧
            0 ≤ (c : Int) + dx ∧ (c : Int) + dx < (N : Int)
        · rw [if_pos h2]
          simp only [Bool.not_eq_true', beq_eq_false_iff_ne, ne_eq]
          apply hspec _ (by omega) _ (by omega)
          · intro hu
            obtain ⟨u1, u2⟩ := hu
            have : dy = 0 ∧ dx = 0 := by omega
            simp [this.1, this.2] at h0
          · unfold adiff; omega
        · rw [if_neg h2]
      · rw [if_neg h1]

lemma mem_neighborsB {N r c : Nat} {q : Nat × Nat} :
    q ∈ neighborsB N r c ↔ q.1 < N ∧ q.2 < N ∧ adiff r q.1 + adiff c q.2 = 1 := by
  obtain ⟨q1, q2⟩ := q
  unfold neighborsB
  simp only [List.mem_filterMap, List.mem_cons, List.not_mem_nil, or_false]
  constructor
  · rintro ⟨⟨dy, dx⟩, hmem, hif⟩
    split at hif
    · next hcond =>
      simp only [Option.some.injEq, Prod.mk.injEq] at hif
      obtain ⟨e1, e2⟩ := hif
      simp only [Prod.mk.injEq] at hmem
      unfold adiff
      rcases hmem with ⟨u1, u2⟩ | ⟨u1, u2⟩ | ⟨u1, u2⟩ | ⟨u1, u2⟩ <;>
        (subst u1; subst u2; refine ⟨by omega, by omega, by omega⟩)
    · simp at hif
  · rintro ⟨h1, h2, h3⟩
    have hcases : (q1 = r + 1 ∧ q2 = c) ∨ (q1 + 1 = r ∧ q2 = c) ∨
        (q1 = r ∧ q2 = c + 1) ∨ (q1 = r ∧ q2 + 1 = c) := by
      unfold adiff at h3; omega
    rcases hcases with ⟨e1, e2⟩ | ⟨e1, e2⟩ | ⟨e1, e2⟩ | ⟨e1, e2⟩
    · refine ⟨(1, 0), by simp, ?_⟩
      rw [if_pos (by constructor <;> omega)]
      simp only [Option.some.injEq, Prod.mk.injEq]
      constructor <;> omega
    · refine ⟨(-1, 0), by simp, ?_⟩
      rw [if_pos (by refine ⟨by omega, by omega, by omega, by omega⟩)]
      simp only [Option.some.injEq, Prod.mk.injEq]
      constructor <;> omega
    · refine ⟨(0, 1), by simp, ?_⟩
      rw [if_pos (by refine ⟨by omega, by omega, by omega, by omega⟩)]
      simp only [Option.some.injEq, Prod.mk.injEq]
      constructor <;> omega
    · refine ⟨(0, -1), by simp, ?_⟩
      rw [if_pos (by refine ⟨by omega, by omega, by omega, by omega⟩)]
      simp only [Option.some.injEq, Prod.mk.injEq]
      constructor <;> omega

lemma edgeRulesOk_iff {g : List (List Nat)} {N r c val : Nat} :
    edgeRulesOk g N r c val = true ↔
      ∀ q ∈ neighborsB N r c,
        adiff val (cellVal g q.1 q.2) ≠ 0 ∧ adiff val (cellVal g q.1 q.2) ≠ val ∧
          adiff val (cellVal g q.1 q.2) ≠ cellVal g q.1 q.2 := by
  unfold edgeRulesOk
  simp only [List.all_eq_true, Bool.and_eq_true, Bool.not_eq_true',
    beq_eq_false_iff_ne, ne_eq, and_assoc]

lemma verifyCellFail_none_iff {g : List (List Nat)} {N r c : Nat} :
    verifyCellFail g N r c = none ↔ cellSpecOk g N r c := by
  unfold verifyCellFail cellSpecOk packSpec edgeSpec
  constructor
  · intro h
    split at h
    · simp at h
    · next h1 =>
      split at h
      · simp at h
      · next h2 =>
        split at h
        · simp at h
        · next h3 =>
          refine ⟨packCellOk_iff.mp (by simpa using h1), edgeRulesOk_iff.mp (by simpa using h2), by simpa using h3⟩
  · rintro ⟨hs1, hs2, hs3⟩
    have e1 := packCellOk_iff.mpr hs1
    have e2 := edgeRulesOk_iff.mpr hs2
    rw [if_neg (by simp [e1]), if_neg (by simp [e2]), if_neg (by simp [hs3])]

lemma verifyCellFail_some {g : List (List Nat)} {N r c k : Nat}
    (h : verifyCellFail g N r c = some k) :
    (k = 0 ∧ ¬packSpec g N r c) ∨
      (k = 1 ∧ packSpec g N r c ∧ ¬edgeSpec g N r c) ∨
      (k = 2 ∧ packSpec g N r c ∧ edgeSpec g N r c ∧
        ¬(incidentEdges g N r c (cellVal g r c)).Nodup) := by
  unfold verifyCellFail at h
  unfold packSpec edgeSpec
  split at h
  · next h1 =>
    left
    refine ⟨by simpa using h.symm, ?_⟩
    intro hs
    rw [packCellOk_iff.mpr hs] at h1
    simp at h1
  · next h1 =>
    split at h
    · next h2 =>
      right; left
      refine ⟨by simpa using h.symm, packCellOk_iff.mp (by simpa using h1), ?_⟩
      intro hs
      rw [edgeRulesOk_iff.mpr hs] at h2
      simp at h2
    · next h2 =>
      split at h
      · next h3 =>
        right; right
        refine ⟨by simpa using h.symm, packCellOk_iff.mp (by simpa using h1),
          edgeRulesOk_iff.mp (by simpa using h2), by simpa using h3⟩
      · simp at h

lemma findSome?_range_none {α : Type} {f : Nat → Option α} {N j : Nat}
    (h : (List.range N).findSome? f = none) (hj : j < N) : f j = none := by
  rw [List.findSome?_eq_none_iff] at h
  exact h j (List.mem_range.mpr hj)

lemma findSome?_range_some {α : Type} {f : Nat → Option α} {N : Nat} {x : α}
    (h : (List.range N).findSome? f = some x) :
    ∃ i, i < N ∧ f i = some x ∧ ∀ j, j < i → f j = none := by
  induction N with
  | zero => simp [List.range_zero] at h
  | succ n ih =>
    rw [List.range_succ, List.findSome?_append] at h
    cases hn : (List.range n).findSome? f with
    | some y =>
      rw [hn, Option.or_some] at h
      obtain ⟨i, hi, hfi, hfirst⟩ := ih (hn.trans (by rw [h]))
      exact ⟨i, by omega, hfi, hfirst⟩
    | none =>
      rw [hn, Option.none_or] at h
      cases hfn : f n with
      | none => rw [List.findSome?_cons, hfn, List.findSome?_nil] at h; simp at h
      | some z =>
        rw [List.findSome?_cons, hfn] at h
        refine ⟨n, Nat.lt_succ_self n, by rw [hfn]; exact h, ?_⟩
        intro j hj
        exact findSome?_range_none hn hj

/-- C5: the bounded verifier passes iff every cell satisfies the
specification-level per-cell property — full exclusion diamond in all
directions and distances `1..val`, vertex/edge rules over the in-range
4-neighborhood, incident-edge uniqueness; the in-range 4-neighborhood is
exactly the set of in-bounds cells at Manhattan distance 1; and on the
first failing cell of the row-major scan it reports that coordinate and
the first violated rule group (earlier cells all pass). -/
theorem verifier_checks_full_diamond (g : List (List Nat)) (N : Nat) :
    (verify_finite_solution g N = true ↔
      ∀ r, r < N → ∀ c, c < N → cellSpecOk g N r c) ∧
    (∀ q : Nat × Nat, ∀ r c, r < N → c < N →
      (q ∈ neighborsB N r c ↔ q.1 < N ∧ q.2 < N ∧ adiff r q.1 + adiff c q.2 = 1)) ∧
    (∀ r c k, verifyFirstFail g N = some (r, c, k) →
      r < N ∧ c < N ∧
      ((k = 0 ∧ ¬packSpec g N r c) ∨
        (k = 1 ∧ packSpec g N r c ∧ ¬edgeSpec g N r c) ∨
        (k = 2 ∧ packSpec g N r c ∧ edgeSpec g N r c ∧
          ¬(incidentEdges g N r c (cellVal g r c)).Nodup)) ∧
      (∀ r2 c2, r2 < N → c2 < N → (r2 < r ∨ (r2 = r ∧ c2 < c)) →
        cellSpecOk g N r2 c2)) := by
  refine ⟨?_, fun q r c h1 h2 => mem_neighborsB, ?_⟩
  · unfold verify_finite_solution verifyFirstFail
    rw [Option.isNone_iff_eq_none, List.findSome?_eq_none_iff]
    constructor
    · intro h r hr c hc
      have h1 := h r (List.mem_range.mpr hr)
      rw [List.findSome?_eq_none_iff] at h1
      have h2 := h1 c (List.mem_range.mpr hc)
      rw [Option.map_eq_none'] at h2
      exact verifyCellFail_none_iff.mp h2
    · intro h r hr
      rw [List.findSome?_eq_none_iff]
      intro c hc
      rw [Option.map_eq_none']
      exact verifyCellFail_none_iff.mpr
        (h r (List.mem_range.mp hr) c (List.mem_range.mp hc))
  · intro r c k h
    unfold verifyFirstFail at h
    obtain ⟨r0, hr0, hf0, hfirst0⟩ := findSome?_range_some h
    obtain ⟨c0, hc0, hf1, hfirst1⟩ := findSome?_range_some hf0
    rw [Option.map_eq_some'] at hf1
    obtain ⟨k0, hk0, hk1⟩ := hf1
    simp only [Prod.mk.injEq] at hk1
    obtain ⟨er, ec, ek⟩ := hk1
    subst er; subst ec; subst ek
    refine ⟨hr0, hc0, verifyCellFail_some hk0, ?_⟩
    intro r2 c2 h1 h2 h3
    rcases h3 with h3 | ⟨h3, h4⟩
    · have := findSome?_range_none (by exact hfirst0 r2 h3) h2
      rw [Option.map_eq_none'] at this
      exact verifyCellFail_none_iff.mp this
    · subst h3
      have := hfirst1 c2 h4
      rw [Option.map_eq_none'] at this
      exact verifyCellFail_none_iff.mp this

theorem verifier_checks_full_diamond_witness :
    verify_finite_solution (toRows 2 [1, 3, 5, 2]) 2 = true :=
  (verifier_checks_full_diamond (toRows 2 [1, 3, 5, 2]) 2).1.mpr (by decide)


/-! ### Search-state lemmas: locality, restoration, success (C3, C6) -/

/-- All cells from `idx` on are `Unassigned`. -/
def SuffixZero (g : List Nat) (idx : Nat) : Prop := ∀ j, idx ≤ j → g.getD j 0 = 0

lemma list_all_congr {α : Type} {l : List α} {f f2 : α → Bool}
    (h : ∀ x ∈ l, f x = f2 x) : l.all f = l.all f2 := by
  induction l with
  | nil => rfl
  | cons a l ih =>
    simp only [List.all_cons]
    rw [h a (by simp), ih (fun x hx => h x (by simp [hx]))]

lemma getD_set_self {l : List Nat} {i v : Nat} (h : i < l.length) :
    (l.set i v).getD i 0 = v := by
  simp [List.getD_eq_getElem?_getD, List.getElem?_set_self h]

lemma getD_set_ne {l : List Nat} {i j v : Nat} (h : i ≠ j) :
    (l.set i v).getD j 0 = l.getD j 0 := by
  simp [List.getD_eq_getElem?_getD, List.getElem?_set_ne h]

lemma getD_of_le_length {l : List Nat} {j : Nat} (h : l.length ≤ j) : l.getD j 0 = 0 := by
  rw [List.getD_eq_getElem?_getD, List.getElem?_eq_none h]
  rfl

lemma set_getD_zero {l : List Nat} {i : Nat} (h : l.getD i 0 = 0) : l.set i 0 = l := by
  apply List.ext_getElem?
  intro n
  rcases eq_or_ne n i with rfl | hn
  · by_cases hi : n < l.length
    · rw [List.getElem?_set_self hi, List.getElem?_eq_getElem hi]
      rw [List.getD_eq_getElem?_getD, List.getElem?_eq_getElem hi] at h
      simp only [Option.getD_some] at h
      rw [h]
    · rw [List.getElem?_eq_none (by simp; omega), List.getElem?_eq_none (by omega)]
  · rw [List.getElem?_set_ne (Ne.symm hn)]

lemma zeros_getD {N j : Nat} : (zeros N).getD j 0 = 0 := by
  unfold zeros
  by_cases h : j < N * N
  · simp [List.getD_eq_getElem?_getD, List.getElem?_replicate, h]
  · exact getD_of_le_length (by simp; omega)

lemma mem_vals_range {max_col v : Nat} (h : v ∈ (List.range max_col).map (· + 1)) :
    1 ≤ v ∧ v ≤ max_col := by
  simp only [List.mem_map, List.mem_range] at h
  obtain ⟨i, hi, rfl⟩ := h
  omega

lemma succ_pred_mul {r N : Nat} (hr : 0 < r) : (r - 1) * N + N = r * N := by
  have h : r - 1 + 1 = r := Nat.succ_pred_eq_of_pos hr
  calc (r - 1) * N + N = (r - 1 + 1) * N := by ring
    _ = r * N := by rw [h]

lemma cell_idx_lt {N r c : Nat} (hr : r < N) (hc : c < N) : r * N + c < N * N := by
  have h1 : (r + 1) * N ≤ N * N := Nat.mul_le_mul_right N (by omega)
  have h2 : (r + 1) * N = r * N + N := by ring
  omega

lemma cell_idx_div {N r c : Nat} (hN : 0 < N) (hc : c < N) :
    (r * N + c) / N = r ∧ (r * N + c) % N = c := by
  constructor
  · rw [Nat.add_comm, Nat.mul_comm, Nat.add_mul_div_left c r hN, Nat.div_eq_of_lt hc,
      Nat.zero_add]
  · rw [Nat.add_comm, Nat.add_mul_mod_self_right, Nat.mod_eq_of_lt hc]

lemma pack_idx_lt {N r c x y : Nat} (hN : 0 < N) (hy : y ≤ r) (hx : x ≤ c)
    (hne : ¬(x = 0 ∧ y = 0)) : (r - y) * N + (c - x) < r * N + c := by
  rcases Nat.eq_zero_or_pos y with hy0 | hy0
  · subst hy0
    simp only [Nat.sub_zero]
    omega
  · have h1 : (r - y) * N ≤ (r - 1) * N := Nat.mul_le_mul_right N (by omega)
    have h2 := succ_pred_mul (r := r) (N := N) (by omega)
    omega

lemma packingOk_agree {N r c val : Nat} {g1 g2 : List Nat} (hN : 0 < N)
    (hag : ∀ j, j < r * N + c → g1.getD j 0 = g2.getD j 0) :
    packingOk N g1 r c val = packingOk N g2 r c val := by
  unfold packingOk
  apply list_all_congr
  intro x hx
  by_cases h0 : (x == 0 && (val - x) == 0) = true
  · rw [if_pos h0, if_pos h0]
  · rw [if_neg h0, if_neg h0]
    by_cases h1 : (decide ((val - x) ≤ r) && decide (x ≤ c)) = true
    · rw [if_pos h1, if_pos h1]
      simp only [Bool.and_eq_true, decide_eq_true_eq] at h1
      simp only [Bool.and_eq_true, beq_iff_eq, not_and] at h0
      have hb : (r - (val - x)) * N + (c - x) < r * N + c := by
        apply pack_idx_lt hN h1.1 h1.2
        intro ⟨u1, u2⟩
        exact absurd u2 (by simpa [u1] using h0)
      rw [hag _ hb]
    · rw [if_neg h1, if_neg h1]

lemma leftOk_agree {N r c val : Nat} {g1 g2 : List Nat} (hN : 0 < N)
    (hag : ∀ j, j < r * N + c → g1.getD j 0 = g2.getD j 0) :
    leftOk N g1 r c val = leftOk N g2 r c val := by
  unfold leftOk
  by_cases hc : 0 < c
  · rw [if_pos hc, if_pos hc]
    have hb1 : r * N + (c - 1) < r * N + c := by omega
    have hb2 : (r - 1) * N + (c - 1) < r * N + c := by
      rcases Nat.eq_zero_or_pos r with h | h
      · subst h; simp only [Nat.zero_sub, Nat.zero_mul]; omega
      · have h2 := succ_pred_mul (r := r) (N := N) h
        omega
    have hb3 : r * N + (c - 2) < r * N + c := by omega
    rw [hag _ hb1, hag _ hb2, hag _ hb3]
  · rw [if_neg hc, if_neg hc]

lemma topOk_agree {N r c val : Nat} {g1 g2 : List Nat} (hN : 0 < N)
    (hag : ∀ j, j < r * N + c → g1.getD j 0 = g2.getD j 0) :
    topOk N g1 r c val = topOk N g2 r c val := by
  unfold topOk
  by_cases hr : 0 < r
  · rw [if_pos hr, if_pos hr]
    have h2 := succ_pred_mul (r := r) (N := N) hr
    have hb1 : (r - 1) * N + c < r * N + c := by omega
    have hb2 : (r - 2) * N + c < r * N + c := by
      have h1 : (r - 2) * N ≤ (r - 1) * N := Nat.mul_le_mul_right N (by omega)
      omega
    have hb3 : (r - 1) * N + (c - 1) < r * N + c := by omega
    rw [hag _ hb1, hag _ hb2, hag _ hb3]
    by_cases hw : c < N - 1
    · have hb4 : (r - 1) * N + (c + 1) < r * N + c := by omega
      rw [hag _ hb4]
    · have hd : decide (c < N - 1) = false := by simp [hw]
      rw [hd]
      simp only [Bool.false_and]
  · rw [if_neg hr, if_neg hr]

lemma crossOk_agree {N r c val : Nat} {g1 g2 : List Nat} (hN : 0 < N)
    (hag : ∀ j, j < r * N + c → g1.getD j 0 = g2.getD j 0) :
    crossOk N g1 r c val = crossOk N g2 r c val := by
  unfold crossOk
  by_cases hc : 0 < c
  · by_cases hr : 0 < r
    · have h2 := succ_pred_mul (r := r) (N := N) hr
      rw [hag (r * N + (c - 1)) (by omega), hag ((r - 1) * N + c) (by omega)]
    · have hd : decide (0 < r) = false := by simp [hr]
      rw [hd]
      simp only [Bool.and_false, Bool.false_eq_true, if_false]
  · have hd : decide (0 < c) = false := by simp [hc]
    rw [hd]
    simp only [Bool.false_and, Bool.false_eq_true, if_false]

lemma is_locally_valid_agree {N r c val : Nat} {g1 g2 : List Nat} (hN : 0 < N)
    (hag : ∀ j, j < r * N + c → g1.getD j 0 = g2.getD j 0) :
    is_locally_valid_finite N g1 r c val = is_locally_valid_finite N g2 r c val := by
  unfold is_locally_valid_finite
  rw [packingOk_agree hN hag, leftOk_agree hN hag, topOk_agree hN hag, crossOk_agree hN hag]

lemma tryVals_step_true {N idx val : Nat} {bt : List Nat → Bool × List Nat}
    {rest grid g2 : List Nat}
    (hv : is_locally_valid_finite N (grid.set idx val) (idx / N) (idx % N) val = true)
    (hb : bt (grid.set idx val) = (true, g2)) :
    tryVals N idx bt (val :: rest) grid = (true, g2) := by
  show (if is_locally_valid_finite N (grid.set idx val) (idx / N) (idx % N) val then
      match bt (grid.set idx val) with
      | (true, g2) => (true, g2)
      | (false, g2) => tryVals N idx bt rest (g2.set idx 0)
    else tryVals N idx bt rest ((grid.set idx val).set idx 0)) = (true, g2)
  rw [if_pos hv, hb]

lemma tryVals_step_false {N idx val : Nat} {bt : List Nat → Bool × List Nat}
    {rest grid g2 : List Nat}
    (hv : is_locally_valid_finite N (grid.set idx val) (idx / N) (idx % N) val = true)
    (hb : bt (grid.set idx val) = (false, g2)) :
    tryVals N idx bt (val :: rest) grid = tryVals N idx bt rest (g2.set idx 0) := by
  show (if is_locally_valid_finite N (grid.set idx val) (idx / N) (idx % N) val then
      match bt (grid.set idx val) with
      | (true, g2) => (true, g2)
      | (false, g2) => tryVals N idx bt rest (g2.set idx 0)
    else tryVals N idx bt rest ((grid.set idx val).set idx 0)) =
      tryVals N idx bt rest (g2.set idx 0)
  rw [if_pos hv, hb]

lemma tryVals_step_invalid {N idx val : Nat} {bt : List Nat → Bool × List Nat}
    {rest grid : List Nat}
    (hv : ¬is_locally_valid_finite N (grid.set idx val) (idx / N) (idx % N) val = true) :
    tryVals N idx bt (val :: rest) grid =
      tryVals N idx bt rest ((grid.set idx val).set idx 0) := by
  show (if is_locally_valid_finite N (grid.set idx val) (idx / N) (idx % N) val then
      match bt (grid.set idx val) with
      | (true, g2) => (true, g2)
      | (false, g2) => tryVals N idx bt rest (g2.set idx 0)
    else tryVals N idx bt rest ((grid.set idx val).set idx 0)) =
      tryVals N idx bt rest ((grid.set idx val).set idx 0)
  rw [if_neg hv]

lemma tryVals_length (N idx : Nat) (bt : List Nat → Bool × List Nat)
    (hbt : ∀ g, (bt g).2.length = g.length) :
    ∀ vals grid, (tryVals N idx bt vals grid).2.length = grid.length := by
  intro vals
  induction vals with
  | nil => intro grid; rfl
  | cons val rest ih =>
    intro grid
    by_cases hv : is_locally_valid_finite N (grid.set idx val) (idx / N) (idx % N) val = true
    · cases hb : bt (grid.set idx val) with
      | mk b g2 =>
        cases b
        · have hg2l : g2.length = grid.length := by
            have := hbt (grid.set idx val)
            rw [hb] at this
            simpa using this
          rw [tryVals_step_false hv hb, ih (g2.set idx 0)]
          simpa using hg2l
        · have hg2l : g2.length = grid.length := by
            have := hbt (grid.set idx val)
            rw [hb] at this
            simpa using this
          rw [tryVals_step_true hv hb]
          exact hg2l
    · rw [tryVals_step_invalid hv, ih ((grid.set idx val).set idx 0)]
      simp

lemma backtrackF_length (N max_col : Nat) :
    ∀ cells grid idx, (backtrackF N max_col cells grid idx).2.length = grid.length := by
  intro cells
  induction cells with
  | zero => intro grid idx; rfl
  | succ cells ih =>
    intro grid idx
    exact tryVals_length N idx _ (fun g => ih g (idx + 1)) _ grid

lemma tryVals_restore (N idx : Nat) (bt : List Nat → Bool × List Nat)
    (hbt : ∀ g, SuffixZero g (idx + 1) → (bt g).1 = false → (bt g).2 = g) :
    ∀ vals grid, SuffixZero grid idx →
      (tryVals N idx bt vals grid).1 = false → (tryVals N idx bt vals grid).2 = grid := by
  intro vals
  induction vals with
  | nil => intro grid hsz h; rfl
  | cons val rest ih =>
    intro grid hsz h
    have hszg1 : SuffixZero (grid.set idx val) (idx + 1) := by
      intro j hj
      rw [getD_set_ne (by omega)]
      exact hsz j (by omega)
    have hrewind : (grid.set idx val).set idx 0 = grid := by
      rw [List.set_set]
      exact set_getD_zero (hsz idx (Nat.le_refl idx))
    by_cases hv : is_locally_valid_finite N (grid.set idx val) (idx / N) (idx % N) val = true
    · cases hb : bt (grid.set idx val) with
      | mk b g2 =>
        cases b
        · have hg2 : g2 = grid.set idx val := by
            have := hbt (grid.set idx val) hszg1
            rw [hb] at this
            exact this rfl
          rw [hg2] at hb
          rw [tryVals_step_false hv hb, hrewind] at h ⊢
          exact ih grid hsz h
        · rw [tryVals_step_true hv hb] at h
          exact absurd h (by simp)
    · rw [tryVals_step_invalid hv, hrewind] at h ⊢
      exact ih grid hsz h

lemma backtrackF_restore (N max_col : Nat) :
    ∀ cells grid idx, SuffixZero grid idx →
      (backtrackF N max_col cells grid idx).1 = false →
      (backtrackF N max_col cells grid idx).2 = grid := by
  intro cells
  induction cells with
  | zero => intro grid idx hsz h; exact absurd h (by simp [backtrackF])
  | succ cells ih =>
    intro grid idx hsz h
    exact tryVals_restore N idx _ (fun g hg hf => ih g (idx + 1) hg hf) _ grid hsz h

lemma tryVals_success (N idx max_col E : Nat) (hN : 0 < N)
    (bt : List Nat → Bool × List Nat)
    (hR : ∀ g, SuffixZero g (idx + 1) → (bt g).1 = false → (bt g).2 = g)
    (hS : ∀ g g2, g.length = N * N → SuffixZero g (idx + 1) → bt g = (true, g2) →
      (∀ j, j < idx + 1 → g2.getD j 0 = g.getD j 0) ∧
        (∀ j, idx + 1 ≤ j → j < E → 1 ≤ g2.getD j 0 ∧ g2.getD j 0 ≤ max_col ∧
          is_locally_valid_finite N g2 (j / N) (j % N) (g2.getD j 0) = true) ∧
        SuffixZero g2 E) :
    ∀ vals grid g2, (∀ v ∈ vals, 1 ≤ v ∧ v ≤ max_col) →
      grid.length = N * N → idx < N * N → SuffixZero grid idx →
      tryVals N idx bt vals grid = (true, g2) →
      (∀ j, j < idx → g2.getD j 0 = grid.getD j 0) ∧
        (∀ j, idx ≤ j → j < E → 1 ≤ g2.getD j 0 ∧ g2.getD j 0 ≤ max_col ∧
          is_locally_valid_finite N g2 (j / N) (j % N) (g2.getD j 0) = true) ∧
        SuffixZero g2 E := by
  intro vals
  induction vals with
  | nil =>
    intro grid g2 hvals hlen hidx hsz h
    exact absurd (congrArg Prod.fst h) (by simp [tryVals])
  | cons val rest ih =>
    intro grid g2 hvals hlen hidx hsz h
    have hszg1 : SuffixZero (grid.set idx val) (idx + 1) := by
      intro j hj
      rw [getD_set_ne (by omega)]
      exact hsz j (by omega)
    have hleng1 : (grid.set idx val).length = N * N := by simp [hlen]
    have hrewind : (grid.set idx val).set idx 0 = grid := by
      rw [List.set_set]
      exact set_getD_zero (hsz idx (Nat.le_refl idx))
    by_cases hv : is_locally_valid_finite N (grid.set idx val) (idx / N) (idx % N) val = true
    · cases hb : bt (grid.set idx val) with
      | mk b gbt =>
        cases b
        · -- recursion failed: the loop continues after restoring the grid
          have hg2 : gbt = grid.set idx val := by
            have := hR (grid.set idx val) hszg1
            rw [hb] at this
            exact this rfl
          rw [hg2] at hb
          rw [tryVals_step_false hv hb, hrewind] at h
          exact ih grid g2 (fun v hv2 => hvals v (by simp [hv2])) hlen hidx hsz h
        · -- recursion succeeded
          rw [tryVals_step_true hv hb] at h
          have hg2 : gbt = g2 := by simpa using congrArg Prod.snd h
          subst hg2
          obtain ⟨hA, hB, hC⟩ := hS (grid.set idx val) gbt hleng1 hszg1 hb
          have hgidx : gbt.getD idx 0 = val := by
            rw [hA idx (Nat.lt_succ_self idx), getD_set_self (by omega)]
          have hvr := hvals val (by simp)
          refine ⟨?_, ?_, hC⟩
          · intro j hj
            rw [hA j (by omega), getD_set_ne (by omega)]
          · intro j hj1 hj2
            rcases Nat.eq_or_lt_of_le hj1 with rfl | hj
            · have hsum : (idx / N) * N + idx % N = idx := by
                rw [Nat.mul_comm]
                exact Nat.div_add_mod idx N
              have hagree : ∀ i, i < (idx / N) * N + idx % N →
                  (grid.set idx val).getD i 0 = gbt.getD i 0 := by
                intro i hi
                rw [hsum] at hi
                exact (hA i (by omega)).symm
              rw [hgidx]
              refine ⟨by omega, by omega, ?_⟩
              rw [← is_locally_valid_agree hN hagree]
              exact hv
            · exact hB j (by omega) hj2
    · rw [tryVals_step_invalid hv, hrewind] at h
      exact ih grid g2 (fun v hv2 => hvals v (by simp [hv2])) hlen hidx hsz h

lemma backtrackF_success (N max_col : Nat) (hN : 0 < N) :
    ∀ cells idx grid g2, grid.length = N * N → idx + cells ≤ N * N →
      SuffixZero grid idx →
      backtrackF N max_col cells grid idx = (true, g2) →
      (∀ j, j < idx → g2.getD j 0 = grid.getD j 0) ∧
        (∀ j, idx ≤ j → j < idx + cells → 1 ≤ g2.getD j 0 ∧ g2.getD j 0 ≤ max_col ∧
          is_locally_valid_finite N g2 (j / N) (j % N) (g2.getD j 0) = true) ∧
        SuffixZero g2 (idx + cells) := by
  intro cells
  induction cells with
  | zero =>
    intro idx grid g2 h1 h2 h3 h
    have hg : grid = g2 := by simpa [backtrackF] using congrArg Prod.snd h
    subst hg
    exact ⟨fun j hj => rfl, fun j hj1 hj2 => absurd hj2 (by omega), by simpa using h3⟩
  | succ cells ih =>
    intro idx grid g2 h1 h2 h3 h
    have main := tryVals_success N idx max_col (idx + 1 + cells) hN
      (fun g => backtrackF N max_col cells g (idx + 1))
      (fun g hg hf => backtrackF_restore N max_col cells g (idx + 1) hg hf)
      (fun g gx hl hsz hbt => ih (idx + 1) g gx hl (by omega) hsz hbt)
      ((List.range max_col).map (· + 1)) grid g2
      (fun v hv => mem_vals_range hv) h1 (by omega) h3 h
    have he : idx + (cells + 1) = idx + 1 + cells := by omega
    rw [he]
    exact main

/-! ### From per-placement validity to the global rules 2-7 (C3) -/

lemma leftOk_extract {N r c val : Nat} {g : List Nat}
    (h : leftOk N g r c val = true) (hc : 0 < c) :
    adiff val (g.getD (r * N + (c - 1)) 0) ≠ 0 ∧
      adiff val (g.getD (r * N + (c - 1)) 0) ≠ val ∧
      adiff val (g.getD (r * N + (c - 1)) 0) ≠ g.getD (r * N + (c - 1)) 0 ∧
      (0 < r → adiff val (g.getD (r * N + (c - 1)) 0) ≠
        adiff (g.getD (r * N + (c - 1)) 0) (g.getD ((r - 1) * N + (c - 1)) 0)) ∧
      (1 < c → adiff val (g.getD (r * N + (c - 1)) 0) ≠
        adiff (g.getD (r * N + (c - 1)) 0) (g.getD (r * N + (c - 2)) 0)) := by
  unfold leftOk at h
  rw [if_pos hc] at h
  split at h
  · exact absurd h (by simp)
  · next hA =>
    split at h
    · exact absurd h (by simp)
    · next hB =>
      split at h
      · exact absurd h (by simp)
      · next hC =>
        simp only [Bool.or_eq_true, beq_iff_eq, not_or] at hA
        simp only [Bool.and_eq_true, beq_iff_eq, decide_eq_true_eq, not_and] at hB hC
        exact ⟨hA.1.1, hA.1.2, hA.2, hB, hC⟩

lemma topOk_extract {N r c val : Nat} {g : List Nat}
    (h : topOk N g r c val = true) (hr : 0 < r) :
    adiff val (g.getD ((r - 1) * N + c) 0) ≠ 0 ∧
      adiff val (g.getD ((r - 1) * N + c) 0) ≠ val ∧
      adiff val (g.getD ((r - 1) * N + c) 0) ≠ g.getD ((r - 1) * N + c) 0 ∧
      (1 < r → adiff val (g.getD ((r - 1) * N + c) 0) ≠
        adiff (g.getD ((r - 1) * N + c) 0) (g.getD ((r - 2) * N + c) 0)) ∧
      (0 < c → adiff val (g.getD ((r - 1) * N + c) 0) ≠
        adiff (g.getD ((r - 1) * N + c) 0) (g.getD ((r - 1) * N + (c - 1)) 0)) ∧
      (c < N - 1 → adiff val (g.getD ((r - 1) * N + c) 0) ≠
        adiff (g.getD ((r - 1) * N + c) 0) (g.getD ((r - 1) * N + (c + 1)) 0)) := by
  unfold topOk at h
  rw [if_pos hr] at h
  split at h
  · exact absurd h (by simp)
  · next hA =>
    split at h
    · exact absurd h (by simp)
    · next hB =>
      split at h
      · exact absurd h (by simp)
      · next hC =>
        split at h
        · exact absurd h (by simp)
        · next hD =>
          simp only [Bool.or_eq_true, beq_iff_eq, not_or] at hA
          simp only [Bool.and_eq_true, beq_iff_eq, decide_eq_true_eq, not_and] at hB hC hD
          exact ⟨hA.1.1, hA.1.2, hA.2, hB, hC, hD⟩

lemma crossOk_extract {N r c val : Nat} {g : List Nat}
    (h : crossOk N g r c val = true) (hc : 0 < c) (hr : 0 < r) :
    adiff val (g.getD (r * N + (c - 1)) 0) ≠ adiff val (g.getD ((r - 1) * N + c) 0) := by
  unfold crossOk at h
  rw [if_pos (by simp [hc, hr])] at h
  simpa using h

lemma edge_conclusions {a b : Nat} (h0 : adiff a b ≠ 0) (h1 : adiff a b ≠ a)
    (h2 : adiff a b ≠ b) :
    a ≠ b ∧ a ≠ 2 * b ∧ b ≠ 2 * a ∧ adiff a b ≠ 0 ∧ adiff a b ≠ a ∧ adiff a b ≠ b := by
  unfold adiff at *
  omega

lemma edge_conclusions2 {a b : Nat} (h0 : adiff b a ≠ 0) (h1 : adiff b a ≠ b)
    (h2 : adiff b a ≠ a) :
    a ≠ b ∧ a ≠ 2 * b ∧ b ≠ 2 * a ∧ adiff a b ≠ 0 ∧ adiff a b ≠ a ∧ adiff a b ≠ b := by
  unfold adiff at *
  omega

lemma adj_cases {N : Nat} {p q : Nat × Nat} (h : Adj N p q) :
    (q.1 = p.1 + 1 ∧ q.2 = p.2) ∨ (q.1 + 1 = p.1 ∧ q.2 = p.2) ∨
      (q.1 = p.1 ∧ q.2 = p.2 + 1) ∨ (q.1 = p.1 ∧ q.2 + 1 = p.2) := by
  obtain ⟨h1, h2, h3, h4, h5⟩ := h
  unfold adiff at h5
  omega

lemma valid_components {N : Nat} (hN : 0 < N) {g : List Nat}
    (hv : ∀ j, j < N * N → is_locally_valid_finite N g (j / N) (j % N) (g.getD j 0) = true) :
    ∀ r c, r < N → c < N →
      leftOk N g r c (g.getD (r * N + c) 0) = true ∧
        topOk N g r c (g.getD (r * N + c) 0) = true ∧
        crossOk N g r c (g.getD (r * N + c) 0) = true := by
  intro r c hr hc
  have h := hv (r * N + c) (cell_idx_lt hr hc)
  obtain ⟨hdiv, hmod⟩ := cell_idx_div (r := r) hN hc
  rw [hdiv, hmod] at h
  unfold is_locally_valid_finite at h
  simp only [Bool.and_eq_true] at h
  exact ⟨h.1.1.2, h.1.2, h.2⟩

/-- Rules 2-7 hold globally on any grid every cell of which passes the
incremental Rule Engine check against its own value. -/
lemma rules_of_valid (N : Nat) (hN : 0 < N) (g : List Nat)
    (hv : ∀ j, j < N * N → is_locally_valid_finite N g (j / N) (j % N) (g.getD j 0) = true) :
    Rules2to7 N g := by
  have hvc := valid_components hN hv
  constructor
  · -- adjacent-pair rules
    rintro ⟨p1, p2⟩ ⟨q1, q2⟩ hadj
    obtain ⟨hp1, hp2, hq1, hq2, -⟩ := id hadj
    dsimp only at hp1 hp2 hq1 hq2
    unfold cellAt
    dsimp only
    rcases adj_cases hadj with ⟨e1, e2⟩ | ⟨e1, e2⟩ | ⟨e1, e2⟩ | ⟨e1, e2⟩ <;>
      dsimp only at e1 e2
    · -- q is below p: top edge of q
      rw [e1] at hq1
      rw [e1, e2]
      have h := (hvc (p1 + 1) p2 hq1 hp2).2.1
      obtain ⟨u0, u1, u2, -⟩ := topOk_extract h (by omega)
      exact edge_conclusions2 u0 u1 u2
    · -- q is above p: top edge of p
      rw [← e1] at hp1
      rw [← e1, e2]
      have h := (hvc (q1 + 1) p2 hp1 hp2).2.1
      obtain ⟨u0, u1, u2, -⟩ := topOk_extract h (by omega)
      exact edge_conclusions u0 u1 u2
    · -- q is right of p: left edge of q
      rw [e2] at hq2
      rw [e1, e2]
      have h := (hvc p1 (p2 + 1) hp1 hq2).1
      obtain ⟨u0, u1, u2, -⟩ := leftOk_extract h (by omega)
      exact edge_conclusions2 u0 u1 u2
    · -- q is left of p: left edge of p
      rw [← e2] at hp2
      rw [e1, ← e2]
      have h := (hvc p1 (q2 + 1) hp1 hp2).1
      obtain ⟨u0, u1, u2, -⟩ := leftOk_extract h (by omega)
      exact edge_conclusions u0 u1 u2
  · -- neighbor-pair rules at a common cell
    rintro ⟨p1, p2⟩ ⟨x1, y1⟩ ⟨x2, y2⟩ hadj1 hadj2 hne
    obtain ⟨hp1, hp2, hx1, hy1, -⟩ := id hadj1
    obtain ⟨-, -, hx2, hy2, -⟩ := id hadj2
    dsimp only at hp1 hp2 hx1 hy1 hx2 hy2
    unfold cellAt
    dsimp only
    have key : adiff (g.getD (p1 * N + p2) 0) (g.getD (x1 * N + y1) 0) ≠
        adiff (g.getD (p1 * N + p2) 0) (g.getD (x2 * N + y2) 0) := by
      rcases adj_cases hadj1 with ⟨e1, e2⟩ | ⟨e1, e2⟩ | ⟨e1, e2⟩ | ⟨e1, e2⟩ <;>
        rcases adj_cases hadj2 with ⟨f1, f2⟩ | ⟨f1, f2⟩ | ⟨f1, f2⟩ | ⟨f1, f2⟩ <;>
        dsimp only at e1 e2 f1 f2
      · -- (down, down): the two neighbors coincide
        exact absurd (by simp only [Prod.mk.injEq]; omega) hne
      · -- (down, up)
        rw [e1, ← f1] at hx1
        rw [e1, e2, f2, ← f1]
        have h := (hvc (x2 + 1 + 1) p2 hx1 hp2).2.1
        obtain ⟨-, -, -, u4, -, -⟩ := topOk_extract h (by omega)
        intro hcontra
        exact (u4 (by omega)) (by rw [adiff_comm]; exact hcontra)
      · -- (down, right)
        rw [e1] at hx1
        rw [f2] at hy2
        rw [e1, e2, f1, f2]
        have h := (hvc (p1 + 1) p2 hx1 hp2).2.1
        obtain ⟨-, -, -, -, -, u6⟩ := topOk_extract h (by omega)
        intro hcontra
        exact (u6 (by omega)) (by rw [adiff_comm]; exact hcontra)
      · -- (down, left)
        rw [e1] at hx1
        rw [← f2] at hp2
        rw [e1, e2, f1, ← f2]
        have h := (hvc (p1 + 1) (y2 + 1) hx1 hp2).2.1
        obtain ⟨-, -, -, -, u5, -⟩ := topOk_extract h (by omega)
        intro hcontra
        exact (u5 (by omega)) (by rw [adiff_comm]; exact hcontra)
      · -- (up, down)
        rw [f1, ← e1] at hx2
        rw [e2, f2, f1, ← e1]
        have h := (hvc (x1 + 1 + 1) p2 hx2 hp2).2.1
        obtain ⟨-, -, -, u4, -, -⟩ := topOk_extract h (by omega)
        intro hcontra
        exact (u4 (by omega)) (by rw [adiff_comm]; exact hcontra.symm)
      · -- (up, up): the two neighbors coincide
        exact absurd (by simp only [Prod.mk.injEq]; omega) hne
      · -- (up, right)
        rw [← e1] at hp1
        rw [f2] at hy2
        rw [e2, f1, f2, ← e1]
        have h := (hvc (x1 + 1) (p2 + 1) hp1 hy2).1
        obtain ⟨-, -, -, u4, -⟩ := leftOk_extract h (by omega)
        intro hcontra
        exact (u4 (by omega)) (by rw [adiff_comm]; exact hcontra.symm)
      · -- (up, left)
        rw [← e1] at hp1
        rw [← f2] at hp2
        rw [e2, f1, ← e1, ← f2]
        have h := (hvc (x1 + 1) (y2 + 1) hp1 hp2).2.2
        have F := crossOk_extract h (by omega) (by omega)
        exact F.symm
      · -- (right, down)
        rw [f1] at hx2
        rw [e2] at hy1
        rw [e1, e2, f1, f2]
        have h := (hvc (p1 + 1) p2 hx2 hp2).2.1
        obtain ⟨-, -, -, -, -, u6⟩ := topOk_extract h (by omega)
        intro hcontra
        exact (u6 (by omega)) (by rw [adiff_comm]; exact hcontra.symm)
      · -- (right, up)
        rw [← f1] at hp1
        rw [e2] at hy1
        rw [e1, e2, f2, ← f1]
        have h := (hvc (x2 + 1) (p2 + 1) hp1 hy1).1
        obtain ⟨-, -, -, u4, -⟩ := leftOk_extract h (by omega)
        intro hcontra
        exact (u4 (by omega)) (by rw [adiff_comm]; exact hcontra)
      · -- (right, right): the two neighbors coincide
        exact absurd (by simp only [Prod.mk.injEq]; omega) hne
      · -- (right, left)
        rw [e2, ← f2] at hy1
        rw [e1, f1, e2, ← f2]
        have h := (hvc p1 (y2 + 1 + 1) hp1 hy1).1
        obtain ⟨-, -, -, -, u5⟩ := leftOk_extract h (by omega)
        intro hcontra
        exact (u5 (by omega)) (by rw [adiff_comm]; exact hcontra)
      · -- (left, down)
        rw [f1] at hx2
        rw [← e2] at hp2
        rw [e1, f1, f2, ← e2]
        have h := (hvc (p1 + 1) (y1 + 1) hx2 hp2).2.1
        obtain ⟨-, -, -, -, u5, -⟩ := topOk_extract h (by omega)
        intro hcontra
        exact (u5 (by omega)) (by rw [adiff_comm]; exact hcontra.symm)
      · -- (left, up)
        rw [← f1] at hp1
        rw [← e2] at hp2
        rw [e1, f2, ← f1, ← e2]
        have h := (hvc (x2 + 1) (y1 + 1) hp1 hp2).2.2
        exact crossOk_extract h (by omega) (by omega)
      · -- (left, right)
        rw [f2, ← e2] at hy2
        rw [e1, f1, f2, ← e2]
        have h := (hvc p1 (y1 + 1 + 1) hp1 hy2).1
        obtain ⟨-, -, -, -, u5⟩ := leftOk_extract h (by omega)
        intro hcontra
        exact (u5 (by omega)) (by rw [adiff_comm]; exact hcontra.symm)
      · -- (left, left): the two neighbors coincide
        exact absurd (by simp only [Prod.mk.injEq]; omega) hne
    refine ⟨fun he => key ?_, key⟩
    exact adiff_eq_of_twice he

/-- C3: any grid the backtracking driver completes from index 0 on the
all-zero grid — every placement accepted by `is_locally_valid_finite` in
row-major order — satisfies rules 2-7 globally: basic inequality,
no-doubling and the vertex/edge weight rules on every grid-adjacent pair,
and arithmetic-progression prevention plus pairwise-distinct edge weights
for every unordered pair of neighbors of a common cell. -/
theorem rules_coverage (N max_col : Nat) (g : List Nat) (hN : 0 < N)
    (h : backtrack N max_col (zeros N) 0 = (true, g)) : Rules2to7 N g := by
  unfold backtrack at h
  obtain ⟨-, hB, -⟩ := backtrackF_success N max_col hN (N * N - 0) 0 (zeros N) g
    (by simp [zeros]) (by omega) (fun j hj => zeros_getD) h
  apply rules_of_valid N hN g
  intro j hj
  exact (hB j (by omega) (by omega)).2.2

theorem rules_coverage_witness : Rules2to7 2 [1, 3, 5, 2] :=
  rules_coverage 2 5 [1, 3, 5, 2] (by decide) (by decide)

/-! ### The trace of reachable calls and the stack discipline (C6) -/

lemma tryValsT_step_true {N idx val : Nat}
    {btT : List Nat → (Bool × List Nat) × List (Nat × List Nat)}
    {rest grid g2 : List Nat} {tr : List (Nat × List Nat)}
    (hv : is_locally_valid_finite N (grid.set idx val) (idx / N) (idx % N) val = true)
    (hb : btT (grid.set idx val) = ((true, g2), tr)) :
    tryValsT N idx btT (val :: rest) grid = ((true, g2), tr) := by
  show (if is_locally_valid_finite N (grid.set idx val) (idx / N) (idx % N) val then
      match btT (grid.set idx val) with
      | ((true, g2), tr) => ((true, g2), tr)
      | ((false, g2), tr) =>
        let res := tryValsT N idx btT rest (g2.set idx 0)
        (res.1, tr ++ res.2)
    else tryValsT N idx btT rest ((grid.set idx val).set idx 0)) = ((true, g2), tr)
  rw [if_pos hv, hb]

lemma tryValsT_step_false {N idx val : Nat}
    {btT : List Nat → (Bool × List Nat) × List (Nat × List Nat)}
    {rest grid g2 : List Nat} {tr : List (Nat × List Nat)}
    (hv : is_locally_valid_finite N (grid.set idx val) (idx / N) (idx % N) val = true)
    (hb : btT (grid.set idx val) = ((false, g2), tr)) :
    tryValsT N idx btT (val :: rest) grid =
      ((tryValsT N idx btT rest (g2.set idx 0)).1,
        tr ++ (tryValsT N idx btT rest (g2.set idx 0)).2) := by
  show (if is_locally_valid_finite N (grid.set idx val) (idx / N) (idx % N) val then
      match btT (grid.set idx val) with
      | ((true, g2), tr) => ((true, g2), tr)
      | ((false, g2), tr) =>
        let res := tryValsT N idx btT rest (g2.set idx 0)
        (res.1, tr ++ res.2)
    else tryValsT N idx btT rest ((grid.set idx val).set idx 0)) = _
  rw [if_pos hv, hb]

lemma tryValsT_step_invalid {N idx val : Nat}
    {btT : List Nat → (Bool × List Nat) × List (Nat × List Nat)}
    {rest grid : List Nat}
    (hv : ¬is_locally_valid_finite N (grid.set idx val) (idx / N) (idx % N) val = true) :
    tryValsT N idx btT (val :: rest) grid =
      tryValsT N idx btT rest ((grid.set idx val).set idx 0) := by
  show (if is_locally_valid_finite N (grid.set idx val) (idx / N) (idx % N) val then
      match btT (grid.set idx val) with
      | ((true, g2), tr) => ((true, g2), tr)
      | ((false, g2), tr) =>
        let res := tryValsT N idx btT rest (g2.set idx 0)
        (res.1, tr ++ res.2)
    else tryValsT N idx btT rest ((grid.set idx val).set idx 0)) =
      tryValsT N idx btT rest ((grid.set idx val).set idx 0)
  rw [if_neg hv]

lemma tryValsT_fst (N idx : Nat) (bt : List Nat → Bool × List Nat)
    (btT : List Nat → (Bool × List Nat) × List (Nat × List Nat))
    (hc : ∀ g, (btT g).1 = bt g) :
    ∀ vals grid, (tryValsT N idx btT vals grid).1 = tryVals N idx bt vals grid := by
  intro vals
  induction vals with
  | nil => intro grid; rfl
  | cons val rest ih =>
    intro grid
    by_cases hv : is_locally_valid_finite N (grid.set idx val) (idx / N) (idx % N) val = true
    · cases hbT : btT (grid.set idx val) with
      | mk res tr =>
        cases res with
        | mk b g2 =>
          have hb : bt (grid.set idx val) = (b, g2) := by
            rw [← hc, hbT]
          cases b
          · rw [tryValsT_step_false hv hbT, tryVals_step_false hv hb]
            exact ih (g2.set idx 0)
          · rw [tryValsT_step_true hv hbT, tryVals_step_true hv hb]
    · rw [tryValsT_step_invalid hv, tryVals_step_invalid hv]
      exact ih ((grid.set idx val).set idx 0)

lemma backtrackT_fst (N max_col : Nat) :
    ∀ cells grid idx,
      (backtrackT N max_col cells grid idx).1 = backtrackF N max_col cells grid idx := by
  intro cells
  induction cells with
  | zero => intro grid idx; rfl
  | succ cells ih =>
    intro grid idx
    exact tryValsT_fst N idx _ _ (fun g => ih g (idx + 1)) _ grid

lemma StackInv_suffixZero {m : Nat} {g : List Nat} {idx : Nat} (h : StackInv m g idx) :
    SuffixZero g idx := by
  intro j hj
  by_cases hlt : j < g.length
  · exact h.2 j hlt hj
  · exact getD_of_le_length (by omega)

lemma tryValsT_trace (N idx max_col : Nat)
    (btT : List Nat → (Bool × List Nat) × List (Nat × List Nat))
    (hRT : ∀ g, SuffixZero g (idx + 1) → (btT g).1.1 = false → (btT g).1.2 = g)
    (hTr : ∀ g, g.length = N * N → StackInv max_col g (idx + 1) →
      ∀ e ∈ (btT g).2, StackInv max_col e.2 e.1) :
    ∀ vals grid, (∀ v ∈ vals, 1 ≤ v ∧ v ≤ max_col) → grid.length = N * N →
      idx < N * N → StackInv max_col grid idx →
      ∀ e ∈ (tryValsT N idx btT vals grid).2, StackInv max_col e.2 e.1 := by
  intro vals
  induction vals with
  | nil =>
    intro grid _ _ _ _ e he
    simp [tryValsT] at he
  | cons val rest ih =>
    intro grid hvals hlen hidx hinv e he
    have hinv1 : StackInv max_col (grid.set idx val) (idx + 1) := by
      constructor
      · intro j hj
        rcases Nat.lt_or_ge j idx with hj2 | hj2
        · rw [getD_set_ne (by omega)]
          exact hinv.1 j hj2
        · have hj3 : j = idx := by omega
          subst hj3
          rw [getD_set_self (by omega)]
          exact hvals val (by simp)
      · intro j hjlen hj
        rw [getD_set_ne (by omega)]
        exact hinv.2 j (by simpa using hjlen) (by omega)
    have hrewind : (grid.set idx val).set idx 0 = grid := by
      rw [List.set_set]
      exact set_getD_zero (hinv.2 idx (by omega) (Nat.le_refl idx))
    by_cases hv : is_locally_valid_finite N (grid.set idx val) (idx / N) (idx % N) val = true
    · cases hbT : btT (grid.set idx val) with
      | mk res tr =>
        cases res with
        | mk b g2 =>
          cases b
          · have hg2 : g2 = grid.set idx val := by
              have := hRT (grid.set idx val) (StackInv_suffixZero hinv1)
              rw [hbT] at this
              exact this rfl
            rw [hg2] at hbT
            rw [tryValsT_step_false hv hbT] at he
            rw [hrewind] at he
            dsimp only at he
            rw [List.mem_append] at he
            rcases he with he | he
            · exact hTr (grid.set idx val) (by simp [hlen]) hinv1 e (by rw [hbT]; exact he)
            · exact ih grid (fun v hv2 => hvals v (by simp [hv2])) hlen hidx hinv e he
          · rw [tryValsT_step_true hv hbT] at he
            dsimp only at he
            exact hTr (grid.set idx val) (by simp [hlen]) hinv1 e (by rw [hbT]; exact he)
    · rw [tryValsT_step_invalid hv, hrewind] at he
      exact ih grid (fun v hv2 => hvals v (by simp [hv2])) hlen hidx hinv e he

lemma backtrackT_trace (N max_col : Nat) :
    ∀ cells grid idx, grid.length = N * N → idx + cells ≤ N * N →
      StackInv max_col grid idx →
      ∀ e ∈ (backtrackT N max_col cells grid idx).2, StackInv max_col e.2 e.1 := by
  intro cells
  induction cells with
  | zero =>
    intro grid idx hlen hle hinv e he
    simp only [backtrackT, List.mem_singleton] at he
    subst he
    exact hinv
  | succ cells ih =>
    intro grid idx hlen hle hinv e he
    have hRT : ∀ g, SuffixZero g (idx + 1) →
        (backtrackT N max_col cells g (idx + 1)).1.1 = false →
        (backtrackT N max_col cells g (idx + 1)).1.2 = g := by
      intro g hg hf
      have hc := backtrackT_fst N max_col cells g (idx + 1)
      rw [hc] at hf ⊢
      exact backtrackF_restore N max_col cells g (idx + 1) hg hf
    have he2 : e ∈ (idx, grid) ::
        (tryValsT N idx (fun g => backtrackT N max_col cells g (idx + 1))
          ((List.range max_col).map (· + 1)) grid).2 := he
    rw [List.mem_cons] at he2
    rcases he2 with he2 | he2
    · subst he2; exact hinv
    · exact tryValsT_trace N idx max_col _ hRT
        (fun g hl hinv2 e2 he3 => ih g (idx + 1) hl (by omega) hinv2 e2 he3)
        _ grid (fun v hv => mem_vals_range hv) hlen (by omega) hinv e he2

/-- C6: strict stack discipline — at entry to every call reachable from
`backtrack` at index 0 on the all-zero grid, the cells before the frontier
hold values in `[1, max_col]` and the cells from the frontier on are
`Unassigned`; and a call entered in such a state that returns `False`
leaves the grid exactly as it found it. -/
theorem stack_discipline (N max_col idx : Nat) (grid out : List Nat)
    (hlen : grid.length = N * N) (hidx : idx ≤ N * N)
    (hinv : StackInv max_col grid idx)
    (hfail : backtrack N max_col grid idx = (false, out)) :
    out = grid ∧
      (∀ e ∈ (backtrackT N max_col (N * N) (zeros N) 0).2, StackInv max_col e.2 e.1) ∧
      (backtrackT N max_col (N * N) (zeros N) 0).1 = backtrack N max_col (zeros N) 0 := by
  refine ⟨?_, ?_, ?_⟩
  · unfold backtrack at hfail
    have hr := backtrackF_restore N max_col (N * N - idx) grid idx
      (StackInv_suffixZero hinv) (by rw [hfail])
    rw [hfail] at hr
    exact hr
  · apply backtrackT_trace N max_col (N * N) (zeros N) 0 (by simp [zeros]) (by omega)
    exact ⟨fun j hj => absurd hj (by omega), fun j hjl hj => zeros_getD⟩
  · exact backtrackT_fst N max_col (N * N) (zeros N) 0

theorem stack_discipline_witness :
    ([0, 0, 0, 0] : List Nat) = zeros 2 ∧
      (backtrackT 2 1 (2 * 2) (zeros 2) 0).1 = backtrack 2 1 (zeros 2) 0 := by
  have T := stack_discipline 2 1 0 (zeros 2) [0, 0, 0, 0] (by decide) (by decide)
    (by decide) (by decide)
  exact ⟨T.1.symm, T.2.2⟩
end GraphTheory
